import Mathlib

/-!
Verification of the `multipart` struct encoder (`multipart.go`) against its
specification.  The Go program is shallowly embedded: Go values are an
inductive type over the kinds the encoder dispatches on, and the multipart
writer is modelled as a stream of parts produced by numbered writer
operations.  Each writer operation (part creation, byte write, final close)
consults an injected failure oracle, so that the error-propagation structure
of the code is observable; the all-succeeding oracle models the actual
`bytes.Buffer`-backed writer, whose writes never fail.  The standard-library
pieces the encoder calls but does not contain (`json.Marshal`,
`http.DetectContentType`, `mime.ExtensionsByType`) are injected as
parameters or modelled from the spec, as noted on each definition.
-/

/-- Per-field metadata taken from the struct type: the Go field identifier,
the `form:"..."` tag (empty when absent) and the `filename:"..."` tag
(empty when absent). -/
structure FieldMeta where
  name : String
  formTag : String
  filenameTag : String
deriving DecidableEq

/-- A Go value, restricted to the kinds `Encode` dispatches on.  `bytes`
is a `[]byte` (static element type `uint8`), `slice` any other slice;
`none` models a nil slice.  `intv`/`uintv` cover all signed/unsigned
integer widths (the code reads them via `field.Int()` / `field.Uint()`).
`ptr` is a pointer (`none` = nil), `arrv` a Go array (kind
`reflect.Array`, which the switch does not mention), and `mapv` stands for
the remaining kinds (maps, channels, functions, interfaces) that the
switch ignores.  Floating-point fields are outside the embedding. -/
inductive GoValue where
  | str (s : String)
  | intv (n : Int)
  | uintv (n : Nat)
  | boolv (b : Bool)
  | bytes (bs : Option (List Nat))
  | slice (elems : Option (List GoValue))
  | structv (fields : List (FieldMeta × GoValue))
  | ptr (v : Option GoValue)
  | arrv (elems : List GoValue)
  | mapv

/-- One part of the multipart output: the form-field name, the filename
(`some` exactly for file parts created by `CreateFormFile`), and the body
bytes written into the part. -/
structure FormPart where
  name : String
  filename : Option String
  body : List Nat
deriving DecidableEq

/-- Writer state: parts created so far (most recent first) and the index of
the next writer operation (used by the failure oracle). -/
structure WState where
  parts : List FormPart
  idx : Nat

/-- UTF-8 encoding of one character, modelling Go's `[]byte(s)` conversion
of a string to bytes. -/
def utf8EncodeChar (c : Char) : List Nat :=
  let n := c.toNat
  if n < 0x80 then [n]
  else if n < 0x800 then [0xC0 ||| (n >>> 6), 0x80 ||| (n &&& 0x3F)]
  else if n < 0x10000 then
    [0xE0 ||| (n >>> 12), 0x80 ||| ((n >>> 6) &&& 0x3F), 0x80 ||| (n &&& 0x3F)]
  else
    [0xF0 ||| (n >>> 18), 0x80 ||| ((n >>> 12) &&& 0x3F),
      0x80 ||| ((n >>> 6) &&& 0x3F), 0x80 ||| (n &&& 0x3F)]

/-- Go's `[]byte(s)`: the UTF-8 bytes of a string. -/
def strBytes (s : String) : List Nat :=
  (s.data.map utf8EncodeChar).flatten

/-- Model of `strconv.FormatInt(i, 10)`: base-10 decimal with a leading `-` for
negative values. -/
def formatInt (i : Int) : String := toString i

/-- Model of `strconv.FormatUint(u, 10)`. -/
def formatUint (u : Nat) : String := toString u

/-- Model of `strconv.FormatBool`. -/
def formatBool (b : Bool) : String := if b then "true" else "false"

/-- Constant `DefaultFileExtension` from the source: used when a file's extension
cannot be detected. -/
def DefaultFileExtension : String := ""

/-- Model of Go's `strings.ToLower` on field identifiers, mapping each
character through `Char.toLower` (kernel-computable, unlike the built-in
`String.toLower`). -/
def stringToLower (s : String) : String :=
  ⟨s.data.map Char.toLower⟩

/-- Name resolution from the loop head of `Encode`:
`fieldName := tag.Get("form"); if fieldName == "" { fieldName = strings.ToLower(name) }`. -/
def resolveFieldName (m : FieldMeta) : String :=
  if m.formTag = "" then stringToLower m.name else m.formTag

/-- A failure oracle for writer operations: `o i = some e` makes the `i`-th
writer operation fail with error message `e`.  `fun _ => none` models the
actual in-memory writer, which never fails. -/
def okOracle : Nat → Option String := fun _ => none

/-- Model of `w.CreateFormField(fn)`: on success a fresh empty part is opened;
on failure no part is produced.  Either way one writer operation is
consumed. -/
def tryCreateFormField (o : Nat → Option String) (st : WState) (fn : String) :
    WState × Option String :=
  match o st.idx with
  | some e => (⟨st.parts, st.idx + 1⟩, some e)
  | none => (⟨⟨fn, none, []⟩ :: st.parts, st.idx + 1⟩, none)

/-- Model of `w.CreateFormFile(fn, filename)`: like `CreateFormField` but the part
carries a filename. -/
def tryCreateFormFile (o : Nat → Option String) (st : WState) (fn filename : String) :
    WState × Option String :=
  match o st.idx with
  | some e => (⟨st.parts, st.idx + 1⟩, some e)
  | none => (⟨⟨fn, some filename, []⟩ :: st.parts, st.idx + 1⟩, none)

/-- Model of `fw.Write(bs)`: append bytes to the most recently created part; on
failure nothing is appended. -/
def tryWrite (o : Nat → Option String) (st : WState) (bs : List Nat) :
    WState × Option String :=
  match o st.idx with
  | some e => (⟨st.parts, st.idx + 1⟩, some e)
  | none =>
    (⟨match st.parts with
      | [] => []
      | p :: rest => ⟨p.name, p.filename, p.body ++ bs⟩ :: rest, st.idx + 1⟩, none)

/-- One iteration of the slice-element loop:
`fw, err = w.CreateFormField(fieldName); if err == nil { switch elem.Kind() ... }`.
The result carries the `err` value left by this iteration; note that
elements whose kind is not string/int/uint get a part created but nothing
written. -/
def encodeElem (o : Nat → Option String) (st : WState) (fn : String)
    (elem : GoValue) : WState × Option String :=
  match tryCreateFormField o st fn with
  | (st1, some e) => (st1, some e)
  | (st1, none) =>
    match elem with
    | .str s => tryWrite o st1 (strBytes s)
    | .intv n => tryWrite o st1 (strBytes (formatInt n))
    | .uintv n => tryWrite o st1 (strBytes (formatUint n))
    | _ => (st1, none)

/-- The slice-element loop.  Go's `err` variable is assigned anew on every
iteration and only inspected after the loop, so the returned error is the
one left by the final iteration (`none` for an empty slice). -/
def encodeSliceElems (o : Nat → Option String) (st : WState) (fn : String) :
    List GoValue → WState × Option String
  | [] => (st, none)
  | [e] => encodeElem o st fn e
  | e :: e2 :: rest =>
    match encodeElem o st fn e with
    | (st1, _) => encodeSliceElems o st1 fn (e2 :: rest)

/-- The body of `Encode`'s per-field loop: name resolution, the skip
sentinel check, and the kind switch, ending with the
`if err != nil { return nil, "", err }` check (modelled by returning
`Except.error`).  `sniff` is `getExtensionFromContent` and `marshal` is
`json.Marshal`, both injected. -/
def encodeField (sniff : List Nat → String)
    (marshal : GoValue → Except String (List Nat))
    (o : Nat → Option String) (st : WState) (m : FieldMeta) (v : GoValue) :
    Except String WState :=
  let fieldName := resolveFieldName m
  if fieldName = "-" then .ok st
  else
    match v with
    | .str s =>
      if s = "" then .ok st
      else
        match tryCreateFormField o st fieldName with
        | (_, some e) => .error e
        | (st1, none) =>
          match tryWrite o st1 (strBytes s) with
          | (_, some e) => .error e
          | (st2, none) => .ok st2
    | .intv n =>
      match tryCreateFormField o st fieldName with
      | (_, some e) => .error e
      | (st1, none) =>
        match tryWrite o st1 (strBytes (formatInt n)) with
        | (_, some e) => .error e
        | (st2, none) => .ok st2
    | .uintv n =>
      match tryCreateFormField o st fieldName with
      | (_, some e) => .error e
      | (st1, none) =>
        match tryWrite o st1 (strBytes (formatUint n)) with
        | (_, some e) => .error e
        | (st2, none) => .ok st2
    | .boolv b =>
      match tryCreateFormField o st fieldName with
      | (_, some e) => .error e
      | (st1, none) =>
        match tryWrite o st1 (strBytes (formatBool b)) with
        | (_, some e) => .error e
        | (st2, none) => .ok st2
    | .bytes obs =>
      match obs with
      | none => .ok st
      | some bs =>
        let filename :=
          if m.filenameTag = "" then
            let ext := sniff bs
            let ext := if ext = "" then DefaultFileExtension else ext
            fieldName ++ ext
          else m.filenameTag
        match tryCreateFormFile o st fieldName filename with
        | (_, some e) => .error e
        | (st1, none) =>
          match tryWrite o st1 bs with
          | (_, some e) => .error e
          | (st2, none) => .ok st2
    | .slice oelems =>
      match oelems with
      | none => .ok st
      | some elems =>
        match encodeSliceElems o st fieldName elems with
        | (_, some e) => .error e
        | (st1, none) => .ok st1
    | .structv fs =>
      match marshal (.structv fs) with
      | .error e => .error e
      | .ok jsonData =>
        match tryCreateFormField o st fieldName with
        | (_, some e) => .error e
        | (st1, none) =>
          match tryWrite o st1 jsonData with
          | (_, some e) => .error e
          | (st2, none) => .ok st2
    | .ptr _ => .ok st
    | .arrv _ => .ok st
    | .mapv => .ok st

/-- The field loop of `Encode`: fields in declaration order, aborting at the
first field whose `err` check fires. -/
def encodeFields (sniff : List Nat → String)
    (marshal : GoValue → Except String (List Nat))
    (o : Nat → Option String) (st : WState) :
    List (FieldMeta × GoValue) → Except String WState
  | [] => .ok st
  | (m, v) :: rest =>
    match encodeField sniff marshal o st m v with
    | .error e => .error e
    | .ok st1 => encodeFields sniff marshal o st1 rest

/-- Model of `v := reflect.ValueOf(req); if v.Kind() == reflect.Ptr { v = v.Elem() }`:
one level of pointer dereference.  A nil pointer dereferences to reflect's
invalid value, modelled as `none`. -/
def deref1 : GoValue → Option GoValue
  | .ptr none => none
  | .ptr (some w) => some w
  | w => some w

/-- Whether the input, after one pointer dereference, is a struct -- the
shape `Encode` accepts. -/
def isStructAfterDeref (v : GoValue) : Bool :=
  match deref1 v with
  | some (.structv _) => true
  | _ => false

/-- Model of `w.FormDataContentType()`.  The random boundary token is not modelled;
on success the content type is this prefix followed by the boundary. -/
def formDataContentType : String := "multipart/form-data; boundary="

/-- Tail of `Encode` once the input is known to be a struct: the field
loop, the `w.Close()` call, and the assembly of the success triple. -/
def encodeStruct (sniff : List Nat → String)
    (marshal : GoValue → Except String (List Nat))
    (o : Nat → Option String) (fields : List (FieldMeta × GoValue)) :
    Option (List FormPart) × String × Option String :=
  match encodeFields sniff marshal o ⟨[], 0⟩ fields with
  | .error e => (none, "", some e)
  | .ok st =>
    match o st.idx with
    | some e => (none, "", some ("failed to close multipart writer " ++ e))
    | none => (some st.parts.reverse, formDataContentType, none)

/-- Function `Encode` with the content sniffer, the JSON marshaller and the
writer failure oracle injected.  Returns the triple
`(*bytes.Buffer, string, error)`: the finished part list (`none` on error),
the content-type string, and the error. -/
def EncodeWith (sniff : List Nat → String)
    (marshal : GoValue → Except String (List Nat))
    (o : Nat → Option String) (req : GoValue) :
    Option (List FormPart) × String × Option String :=
  match deref1 req with
  | some (.structv fields) => encodeStruct sniff marshal o fields
  | _ => (none, "", some "req must be a struct")

/-- Modelled from the spec: `http.DetectContentType`, which is standard-library code outside this repository -- standard magic-number
sniffing for the well-known formats the spec names (PNG, JPEG, GIF, PDF);
anything else degrades to the generic fallback types, which carry no
registered extension in the modelled registry. -/
def detectContentType (data : List Nat) : String :=
  if data = [] then "text/plain; charset=utf-8"
  else if [0xFF, 0xD8, 0xFF].isPrefixOf data then "image/jpeg"
  else if [0x89, 0x50, 0x4E, 0x47, 0x0D, 0x0A, 0x1A, 0x0A].isPrefixOf data then "image/png"
  else if (strBytes "GIF87a").isPrefixOf data ∨ (strBytes "GIF89a").isPrefixOf data then
    "image/gif"
  else if (strBytes "%PDF-").isPrefixOf data then "application/pdf"
  else "application/octet-stream"

/-- Modelled from the spec: `mime.ExtensionsByType`, standard-library plus host registry state outside this repository -- the host registry's
sorted extension lists for the spec's well-known formats (for JPEG the
Linux registry sorts the alternate spelling `.jpe` first, which is what the
source's special case normalizes); unknown types map to no extensions
(`some []`), and `none` models a lookup error. -/
def extensionsByType (t : String) : Option (List String) :=
  if t = "image/png" then some [".png"]
  else if t = "image/jpeg" then some [".jpe", ".jpeg", ".jpg"]
  else if t = "image/gif" then some [".gif"]
  else if t = "application/pdf" then some [".pdf"]
  else some []

/-- Function `getExtensionFromContent` with the MIME sniffing and registry lookup
injected: return `""` on lookup error or empty list, normalize `.jpe` to
`.jpg`, otherwise the first registered extension. -/
def getExtensionFromContentWith (detect : List Nat → String)
    (extByType : String → Option (List String)) (data : List Nat) : String :=
  match extByType (detect data) with
  | none => ""
  | some [] => ""
  | some (e :: _) => if e = ".jpe" then ".jpg" else e

/-- Function `getExtensionFromContent` from the source, over the modelled detector
and registry. -/
def getExtensionFromContent (data : List Nat) : String :=
  getExtensionFromContentWith detectContentType extensionsByType data

/-- Function `Encode` from the source: the sniffer is the concrete
`getExtensionFromContent` and the writer is the in-memory buffer writer,
which never fails.  `json.Marshal` stays injected, since its behaviour is
standard-library code outside this repository. -/
def Encode (marshal : GoValue → Except String (List Nat)) (req : GoValue) :
    Option (List FormPart) × String × Option String :=
  EncodeWith getExtensionFromContent marshal okOracle req

/-! ## Helper lemmas -/

theorem deref1_structv (fs : List (FieldMeta × GoValue)) :
    deref1 (.structv fs) = some (.structv fs) := rfl

theorem EncodeWith_structv (sniff : List Nat → String)
    (marshal : GoValue → Except String (List Nat)) (o : Nat → Option String)
    (fs : List (FieldMeta × GoValue)) :
    EncodeWith sniff marshal o (.structv fs) = encodeStruct sniff marshal o fs := rfl

theorem encodeFields_append (sniff : List Nat → String)
    (marshal : GoValue → Except String (List Nat)) (o : Nat → Option String)
    (xs ys : List (FieldMeta × GoValue)) (st : WState) :
    encodeFields sniff marshal o st (xs ++ ys) =
      match encodeFields sniff marshal o st xs with
      | .error e => .error e
      | .ok st1 => encodeFields sniff marshal o st1 ys := by
  induction xs generalizing st with
  | nil => simp [encodeFields]
  | cons x rest ih =>
    obtain ⟨m, v⟩ := x
    simp only [List.cons_append, encodeFields]
    cases encodeField sniff marshal o st m v with
    | error e => rfl
    | ok st1 => exact ih st1

theorem encodeField_skip (sniff : List Nat → String)
    (marshal : GoValue → Except String (List Nat)) (o : Nat → Option String)
    (st : WState) (m : FieldMeta) (v : GoValue) (h : m.formTag = "-") :
    encodeField sniff marshal o st m v = .ok st := by
  have hfn : resolveFieldName m = "-" := by
    simp [resolveFieldName, h]
  simp [encodeField, hfn]

theorem encodeField_empty_str (sniff : List Nat → String)
    (marshal : GoValue → Except String (List Nat)) (o : Nat → Option String)
    (st : WState) (m : FieldMeta) :
    encodeField sniff marshal o st m (.str "") = .ok st := by
  by_cases h : resolveFieldName m = "-" <;> simp [encodeField, h]

/-! ## Claims -/

/-- C1: for every input value that, after dereferencing at most one level of
pointer indirection, is not a structure (a bare number, a mapping, a nil
pointer, a pointer to a pointer, ...), `Encode` returns a null output
buffer, an empty content-type string, and the error
`"req must be a struct"`. -/
theorem C1_nonstruct_rejected (sniff : List Nat → String)
    (marshal : GoValue → Except String (List Nat)) (o : Nat → Option String)
    (req : GoValue) (h : isStructAfterDeref req = false) :
    EncodeWith sniff marshal o req = (none, "", some "req must be a struct") := by
  unfold EncodeWith
  unfold isStructAfterDeref at h
  cases hd : deref1 req with
  | none => simp [hd]
  | some w =>
    rw [hd] at h
    cases w <;> simp_all

/-- C1 witness: a nil pointer is rejected with the `InvalidInput` error. -/
theorem C1_witness :
    isStructAfterDeref (GoValue.ptr none) = false ∧
      EncodeWith getExtensionFromContent (fun _ => Except.ok []) okOracle
          (GoValue.ptr none) =
        (none, "", some "req must be a struct") :=
  ⟨rfl, C1_nonstruct_rejected getExtensionFromContent (fun _ => Except.ok [])
    okOracle (GoValue.ptr none) rfl⟩

/-- C2: evaluation of the code at the failing input.  The record has a
single slice field with two string elements, and the writer fails on the
part creation for the first element (operation 0) but works afterwards.
The claim requires `Encode` to stop immediately with a null buffer and the
error `"boom"`; the code instead swallows the error -- the loop variable
`err` is overwritten by the second element's successful operations -- and
returns a non-null buffer holding only the second element's part and a nil
error. -/
theorem C2_slice_error_swallowed :
    EncodeWith getExtensionFromContent (fun _ => Except.ok [])
        (fun n => if n = 0 then some "boom" else none)
        (GoValue.structv
          [(⟨"Tags", "", ""⟩, GoValue.slice (some [GoValue.str "a", GoValue.str "b"]))]) =
      (some [⟨"tags", none, strBytes "b"⟩], formDataContentType, none) := by
  rfl

/-- C3: a field whose `form` tag is exactly the skip sentinel `"-"`
contributes nothing and raises no error, whatever its kind or value: the
whole result equals the result of encoding the record without that field
(under any sniffer, marshaller and writer oracle). -/
theorem C3_skip_sentinel (sniff : List Nat → String)
    (marshal : GoValue → Except String (List Nat)) (o : Nat → Option String)
    (pre rest : List (FieldMeta × GoValue)) (m : FieldMeta) (v : GoValue)
    (h : m.formTag = "-") :
    EncodeWith sniff marshal o (.structv (pre ++ (m, v) :: rest)) =
      EncodeWith sniff marshal o (.structv (pre ++ rest)) := by
  rw [EncodeWith_structv, EncodeWith_structv]
  unfold encodeStruct
  rw [encodeFields_append, encodeFields_append]
  cases encodeFields sniff marshal o ⟨[], 0⟩ pre with
  | error e => rfl
  | ok st1 =>
    simp only [encodeFields, encodeField_skip sniff marshal o st1 m v h]

/-- C3 witness: a skipped byte-array field between two string fields leaves
the output identical to the record without it. -/
theorem C3_witness :
    (⟨"Secret", "-", ""⟩ : FieldMeta).formTag = "-" ∧
      EncodeWith getExtensionFromContent (fun _ => Except.ok []) okOracle
          (.structv ([(⟨"A", "", ""⟩, .str "x")] ++
            (⟨"Secret", "-", ""⟩, GoValue.bytes (some [1, 2])) ::
              [(⟨"B", "", ""⟩, .str "y")])) =
        EncodeWith getExtensionFromContent (fun _ => Except.ok []) okOracle
          (.structv ([(⟨"A", "", ""⟩, .str "x")] ++ [(⟨"B", "", ""⟩, .str "y")])) :=
  ⟨rfl, C3_skip_sentinel getExtensionFromContent (fun _ => Except.ok []) okOracle
    [(⟨"A", "", ""⟩, .str "x")] [(⟨"B", "", ""⟩, .str "y")]
    ⟨"Secret", "-", ""⟩ (GoValue.bytes (some [1, 2])) rfl⟩

/-- C4: an empty-string text field contributes no part (removing it leaves
the entire result unchanged, under any oracle), while a signed-integer
field always contributes exactly one part whose body is the base-10
decimal representation of its value; in particular the representation of
zero is `"0"`. -/
theorem C4_empty_text_vs_zero_int :
    (∀ (sniff : List Nat → String) (marshal : GoValue → Except String (List Nat))
        (o : Nat → Option String) (pre rest : List (FieldMeta × GoValue)) (m : FieldMeta),
        EncodeWith sniff marshal o (.structv (pre ++ (m, .str "") :: rest)) =
          EncodeWith sniff marshal o (.structv (pre ++ rest))) ∧
    (∀ (sniff : List Nat → String) (marshal : GoValue → Except String (List Nat))
        (st : WState) (m : FieldMeta) (n : Int), resolveFieldName m ≠ "-" →
        encodeField sniff marshal okOracle st m (.intv n) =
          .ok ⟨⟨resolveFieldName m, none, strBytes (formatInt n)⟩ :: st.parts,
            st.idx + 2⟩) ∧
    formatInt 0 = "0" := by
  refine ⟨?_, ?_, rfl⟩
  · intro sniff marshal o pre rest m
    rw [EncodeWith_structv, EncodeWith_structv]
    unfold encodeStruct
    rw [encodeFields_append, encodeFields_append]
    cases encodeFields sniff marshal o ⟨[], 0⟩ pre with
    | error e => rfl
    | ok st1 =>
      simp only [encodeFields, encodeField_empty_str sniff marshal o st1 m]
  · intro sniff marshal st m n h
    simp [encodeField, h, tryCreateFormField, tryWrite, okOracle]

/-- C4 witness: an integer field with value zero at a concrete record
position yields one part with body `"0"`. -/
theorem C4_witness :
    resolveFieldName ⟨"Age", "", ""⟩ ≠ "-" ∧
      encodeField getExtensionFromContent (fun _ => Except.ok []) okOracle
          ⟨[], 0⟩ ⟨"Age", "", ""⟩ (.intv 0) =
        .ok ⟨[⟨resolveFieldName ⟨"Age", "", ""⟩, none, strBytes (formatInt 0)⟩], 0 + 2⟩ :=
  ⟨by decide, C4_empty_text_vs_zero_int.2.1 getExtensionFromContent
    (fun _ => Except.ok []) ⟨[], 0⟩ ⟨"Age", "", ""⟩ 0 (by decide)⟩

/-- Body bytes that the slice-element loop writes for one element: the
string form for text, signed-integer and unsigned-integer elements; for
every other kind the part is created but nothing is written, leaving an
empty body. -/
def sliceElemBody : GoValue → List Nat
  | .str s => strBytes s
  | .intv n => strBytes (formatInt n)
  | .uintv n => strBytes (formatUint n)
  | _ => []

/-- Writer operations consumed per slice element: one part creation, plus
one byte write for the convertible kinds. -/
def sliceElemOps : GoValue → Nat
  | .str _ => 2
  | .intv _ => 2
  | .uintv _ => 2
  | _ => 1

theorem encodeElem_okOracle (st : WState) (fn : String) (e : GoValue) :
    encodeElem okOracle st fn e =
      (⟨⟨fn, none, sliceElemBody e⟩ :: st.parts, st.idx + sliceElemOps e⟩, none) := by
  cases e <;>
    simp [encodeElem, tryCreateFormField, tryWrite, okOracle, sliceElemBody, sliceElemOps]

theorem encodeSliceElems_okOracle (fn : String) (elems : List GoValue) (st : WState) :
    encodeSliceElems okOracle st fn elems =
      (⟨(elems.map fun e => (⟨fn, none, sliceElemBody e⟩ : FormPart)).reverse ++ st.parts,
        st.idx + (elems.map sliceElemOps).sum⟩, none) := by
  induction elems generalizing st with
  | nil => simp [encodeSliceElems]
  | cons e rest ih =>
    cases rest with
    | nil => simp [encodeSliceElems, encodeElem_okOracle]
    | cons e2 rest2 =>
      simp only [encodeSliceElems, encodeElem_okOracle, ih]
      simp [List.reverse_cons, List.append_assoc]
      omega

/-- C5 counterexample, two concrete inputs.  First, a non-nil slice
containing a single boolean element: the claim predicts no part for that
element, but the code creates a form field for it before dispatching on
the element kind, so the output contains one part (named `tags`, with an
empty body) rather than none.  Second, an array field (`[1]int{7}`): the
claim predicts one part per element, but the switch has no
`reflect.Array` case, so the field is silently ignored and the output is
empty. -/
theorem C5_counterexample :
    EncodeWith getExtensionFromContent (fun _ => Except.ok []) okOracle
        (GoValue.structv [(⟨"Tags", "", ""⟩, GoValue.slice (some [GoValue.boolv true]))]) =
      (some [⟨"tags", none, []⟩], formDataContentType, none) ∧
    ([(⟨"tags", none, []⟩ : FormPart)] : List FormPart) ≠ [] ∧
    EncodeWith getExtensionFromContent (fun _ => Except.ok []) okOracle
        (GoValue.structv [(⟨"Nums", "", ""⟩, GoValue.arrv [GoValue.intv 7])]) =
      (some [], formDataContentType, none) := by
  exact ⟨rfl, by decide, rfl⟩

/-- C5 amended: for a non-null non-byte slice field, the encoder emits one
form part per element, all under the same effective field name and in
element order; text, signed-integer and unsigned-integer elements get
their string form as the body, while elements of any other kind still get
a part created (with an empty body, since nothing is written for them) and
no error is raised. -/
theorem C5_slice_repeated_key (sniff : List Nat → String)
    (marshal : GoValue → Except String (List Nat)) (st : WState) (m : FieldMeta)
    (elems : List GoValue) (h : resolveFieldName m ≠ "-") :
    encodeField sniff marshal okOracle st m (.slice (some elems)) =
      .ok ⟨(elems.map fun e =>
          (⟨resolveFieldName m, none, sliceElemBody e⟩ : FormPart)).reverse ++ st.parts,
        st.idx + (elems.map sliceElemOps).sum⟩ := by
  simp [encodeField, h, encodeSliceElems_okOracle]

/-- C5 witness: the spec's own example, a sequence-of-text field
`["golang", "multipart"]` named `tags`, produces two parts named `tags`
with bodies `golang` and `multipart`, in that order. -/
theorem C5_witness :
    resolveFieldName ⟨"Tags", "", ""⟩ ≠ "-" ∧
      encodeField getExtensionFromContent (fun _ => Except.ok []) okOracle ⟨[], 0⟩
          ⟨"Tags", "", ""⟩ (.slice (some [.str "golang", .str "multipart"])) =
        .ok ⟨([(⟨resolveFieldName ⟨"Tags", "", ""⟩, none, sliceElemBody (.str "golang")⟩ : FormPart),
               ⟨resolveFieldName ⟨"Tags", "", ""⟩, none, sliceElemBody (.str "multipart")⟩].reverse
              ++ []), 0 + 4⟩ := by
  refine ⟨by decide, ?_⟩
  have h := C5_slice_repeated_key getExtensionFromContent (fun _ => Except.ok [])
    ⟨[], 0⟩ ⟨"Tags", "", ""⟩ [.str "golang", .str "multipart"] (by decide)
  simpa using h

/-- C6: a non-nil byte-array field with an explicit `filename` tag never
invokes the content sniffer (the result is the same under any two
sniffers), and the file part it creates carries the annotated filename
verbatim. -/
theorem C6_filename_tag_verbatim :
    (∀ (sniff sniff2 : List Nat → String) (marshal : GoValue → Except String (List Nat))
        (o : Nat → Option String) (st : WState) (m : FieldMeta) (bs : List Nat),
        m.filenameTag ≠ "" →
        encodeField sniff marshal o st m (.bytes (some bs)) =
          encodeField sniff2 marshal o st m (.bytes (some bs))) ∧
    (∀ (sniff : List Nat → String) (marshal : GoValue → Except String (List Nat))
        (st : WState) (m : FieldMeta) (bs : List Nat),
        m.filenameTag ≠ "" → resolveFieldName m ≠ "-" →
        encodeField sniff marshal okOracle st m (.bytes (some bs)) =
          .ok ⟨⟨resolveFieldName m, some m.filenameTag, bs⟩ :: st.parts, st.idx + 2⟩) := by
  constructor
  · intro sniff sniff2 marshal o st m bs h
    simp [encodeField, h]
  · intro sniff marshal st m bs h hn
    simp [encodeField, h, hn, tryCreateFormFile, tryWrite, okOracle]

/-- C6 witness: a byte-array field annotated `filename:"report.bin"` yields
a file part with exactly that filename. -/
theorem C6_witness :
    (⟨"Doc", "", "report.bin"⟩ : FieldMeta).filenameTag ≠ "" ∧
      resolveFieldName ⟨"Doc", "", "report.bin"⟩ ≠ "-" ∧
      encodeField getExtensionFromContent (fun _ => Except.ok []) okOracle ⟨[], 0⟩
          ⟨"Doc", "", "report.bin"⟩ (.bytes (some [1, 2, 3])) =
        .ok ⟨[⟨resolveFieldName ⟨"Doc", "", "report.bin"⟩, some "report.bin", [1, 2, 3]⟩], 0 + 2⟩ :=
  ⟨by decide, by decide,
    C6_filename_tag_verbatim.2 getExtensionFromContent (fun _ => Except.ok [])
      ⟨[], 0⟩ ⟨"Doc", "", "report.bin"⟩ [1, 2, 3] (by decide) (by decide)⟩

/-- C7: the detected extension is never the alternate JPEG spelling `.jpe`
(under any detector and registry); on content the detector classifies as
`image/jpeg`, the concrete sniffer returns the canonical `.jpg`; and an
unannotated byte-array field with such content gets the filename
`<fieldname>.jpg`. -/
theorem C7_jpeg_canonical :
    (∀ (detect : List Nat → String) (extByType : String → Option (List String))
        (data : List Nat),
        getExtensionFromContentWith detect extByType data ≠ ".jpe") ∧
    (∀ data : List Nat, detectContentType data = "image/jpeg" →
        getExtensionFromContent data = ".jpg") ∧
    (∀ (marshal : GoValue → Except String (List Nat)) (st : WState) (m : FieldMeta)
        (bs : List Nat), m.filenameTag = "" → resolveFieldName m ≠ "-" →
        detectContentType bs = "image/jpeg" →
        encodeField getExtensionFromContent marshal okOracle st m (.bytes (some bs)) =
          .ok ⟨⟨resolveFieldName m, some (resolveFieldName m ++ ".jpg"), bs⟩ :: st.parts,
            st.idx + 2⟩) := by
  have hjpg : ∀ data : List Nat, detectContentType data = "image/jpeg" →
      getExtensionFromContent data = ".jpg" := by
    intro data hd
    simp [getExtensionFromContent, getExtensionFromContentWith, hd, extensionsByType]
  refine ⟨?_, hjpg, ?_⟩
  · intro detect extByType data
    unfold getExtensionFromContentWith
    cases extByType (detect data) with
    | none => decide
    | some l =>
      cases l with
      | nil => decide
      | cons e es =>
        by_cases he : e = ".jpe" <;> simp [he]
  · intro marshal st m bs h hn hd
    have hext := hjpg bs hd
    simp [encodeField, h, hn, hext, tryCreateFormFile, tryWrite, okOracle]

/-- C7 witness: content starting `FF D8 FF E0` is classified as JPEG and an
unannotated field `Pic` gets filename `pic.jpg`. -/
theorem C7_witness :
    detectContentType [0xFF, 0xD8, 0xFF, 0xE0, 0, 1] = "image/jpeg" ∧
      encodeField getExtensionFromContent (fun _ => Except.ok []) okOracle ⟨[], 0⟩
          ⟨"Pic", "", ""⟩ (.bytes (some [0xFF, 0xD8, 0xFF, 0xE0, 0, 1])) =
        .ok ⟨[⟨resolveFieldName ⟨"Pic", "", ""⟩,
          some (resolveFieldName ⟨"Pic", "", ""⟩ ++ ".jpg"),
          [0xFF, 0xD8, 0xFF, 0xE0, 0, 1]⟩], 0 + 2⟩ :=
  ⟨by decide,
    C7_jpeg_canonical.2.2 (fun _ => Except.ok []) ⟨[], 0⟩ ⟨"Pic", "", ""⟩
      [0xFF, 0xD8, 0xFF, 0xE0, 0, 1] rfl (by decide) (by decide)⟩

/-- C8: when the registry has no extension for the detected content type --
which is the case for every payload the detector does not classify as one
of the known formats, including any too-short payload -- the detected
extension is the empty string, and an unannotated byte-array field with
such content gets the bare effective field name as its filename, with no
suffix. -/
theorem C8_unrecognized_bare_filename :
    (∀ data : List Nat, extensionsByType (detectContentType data) = some [] →
        getExtensionFromContent data = "") ∧
    (∀ (sniff : List Nat → String) (marshal : GoValue → Except String (List Nat))
        (st : WState) (m : FieldMeta) (bs : List Nat),
        m.filenameTag = "" → resolveFieldName m ≠ "-" → sniff bs = "" →
        encodeField sniff marshal okOracle st m (.bytes (some bs)) =
          .ok ⟨⟨resolveFieldName m, some (resolveFieldName m), bs⟩ :: st.parts,
            st.idx + 2⟩) := by
  constructor
  · intro data hd
    simp [getExtensionFromContent, getExtensionFromContentWith, hd]
  · intro sniff marshal st m bs h hn hext
    simp [encodeField, h, hn, hext, DefaultFileExtension, tryCreateFormFile, tryWrite,
      okOracle]

/-- C8 witness: a two-byte payload `[0, 1]` matches no known signature, its
detected extension is empty, and the generated filename for field `Pic` is
the bare name `pic`. -/
theorem C8_witness :
    extensionsByType (detectContentType [0, 1]) = some [] ∧
      getExtensionFromContent [0, 1] = "" ∧
      encodeField getExtensionFromContent (fun _ => Except.ok []) okOracle ⟨[], 0⟩
          ⟨"Pic", "", ""⟩ (.bytes (some [0, 1])) =
        .ok ⟨[⟨resolveFieldName ⟨"Pic", "", ""⟩, some (resolveFieldName ⟨"Pic", "", ""⟩),
          [0, 1]⟩], 0 + 2⟩ :=
  ⟨by decide, C8_unrecognized_bare_filename.1 [0, 1] (by decide),
    C8_unrecognized_bare_filename.2 getExtensionFromContent (fun _ => Except.ok [])
      ⟨[], 0⟩ ⟨"Pic", "", ""⟩ [0, 1] rfl (by decide)
      (C8_unrecognized_bare_filename.1 [0, 1] (by decide))⟩

/-- C9: a non-nil byte-array field of length zero is still treated as a
file upload: a file part is emitted (unlike an empty text field, which is
omitted), with an empty body and with filename equal to the effective
field name followed by whatever extension the sniffer derives from the
empty content. -/
theorem C9_empty_bytes_still_file (sniff : List Nat → String)
    (marshal : GoValue → Except String (List Nat)) (st : WState) (m : FieldMeta)
    (h : m.filenameTag = "") (hn : resolveFieldName m ≠ "-") :
    encodeField sniff marshal okOracle st m (.bytes (some [])) =
      .ok ⟨⟨resolveFieldName m,
        some (resolveFieldName m ++
          (if sniff [] = "" then DefaultFileExtension else sniff [])), []⟩ :: st.parts,
        st.idx + 2⟩ := by
  by_cases hext : sniff [] = "" <;>
    simp [encodeField, h, hn, hext, tryCreateFormFile, tryWrite, okOracle]

/-- C9 witness: field `Pic` holding a non-nil empty byte slice, with the
concrete sniffer (which derives no extension from empty content), produces
a file part named `pic` with filename `pic` and a zero-length body. -/
theorem C9_witness :
    (⟨"Pic", "", ""⟩ : FieldMeta).filenameTag = "" ∧
      resolveFieldName ⟨"Pic", "", ""⟩ ≠ "-" ∧
      encodeField getExtensionFromContent (fun _ => Except.ok []) okOracle ⟨[], 0⟩
          ⟨"Pic", "", ""⟩ (.bytes (some [])) =
        .ok ⟨[⟨resolveFieldName ⟨"Pic", "", ""⟩,
          some (resolveFieldName ⟨"Pic", "", ""⟩ ++
            (if getExtensionFromContent [] = "" then DefaultFileExtension
              else getExtensionFromContent [])), []⟩], 0 + 2⟩ :=
  ⟨rfl, by decide,
    C9_empty_bytes_still_file getExtensionFromContent (fun _ => Except.ok [])
      ⟨[], 0⟩ ⟨"Pic", "", ""⟩ rfl (by decide)⟩

/-- C10: if `json.Marshal` fails on a nested-structure field, the whole
encode aborts at that field: the marshal error is returned verbatim, the
output buffer is null, and the result does not depend on any later field
(none of them is processed); no form part is created for the failing field
either, since the part creation only happens after a successful marshal. -/
theorem C10_marshal_error_aborts (sniff : List Nat → String)
    (marshal : GoValue → Except String (List Nat)) (o : Nat → Option String)
    (pre : List (FieldMeta × GoValue)) (st : WState) (m : FieldMeta)
    (fs : List (FieldMeta × GoValue)) (e : String)
    (hpre : encodeFields sniff marshal o ⟨[], 0⟩ pre = .ok st)
    (hm : marshal (.structv fs) = .error e)
    (hn : resolveFieldName m ≠ "-") :
    ∀ rest : List (FieldMeta × GoValue),
      EncodeWith sniff marshal o (.structv (pre ++ (m, .structv fs) :: rest)) =
        (none, "", some e) := by
  intro rest
  rw [EncodeWith_structv]
  unfold encodeStruct
  rw [encodeFields_append, hpre]
  simp only [encodeFields, encodeField, hm, hn]
  simp [hn]

/-- C10 witness: a record whose first field is a nested structure on which
the injected marshaller fails with `"boom"`; the encode returns a null
buffer and exactly that error, whatever follows. -/
theorem C10_witness :
    encodeFields getExtensionFromContent (fun _ => Except.error "boom") okOracle
        ⟨[], 0⟩ [] = .ok ⟨[], 0⟩ ∧
      (fun _ => (Except.error "boom" : Except String (List Nat))) (GoValue.structv []) =
        Except.error "boom" ∧
      resolveFieldName ⟨"Meta", "", ""⟩ ≠ "-" ∧
      EncodeWith getExtensionFromContent (fun _ => Except.error "boom") okOracle
          (.structv ([] ++ (⟨"Meta", "", ""⟩, GoValue.structv []) ::
            [(⟨"X", "", ""⟩, GoValue.str "x")])) =
        (none, "", some "boom") :=
  ⟨rfl, rfl, by decide,
    C10_marshal_error_aborts getExtensionFromContent (fun _ => Except.error "boom")
      okOracle [] ⟨[], 0⟩ ⟨"Meta", "", ""⟩ [] "boom" rfl rfl (by decide)
      [(⟨"X", "", ""⟩, GoValue.str "x")]⟩
